import Mathlib

/-!
Verification of the LSF driver of `ert` (`src/ert/scheduler/lsf_driver.py`).

The driver keeps two mutable dictionaries: `_jobs`, mapping an LSF job id
(a string) to a pair `(iens, last-known job state string)`, and
`_iens2jobid`, mapping a realization index to its LSF job id.  Python
dictionaries are embedded as association lists with insertion order, where
assignment (`d[k] = v`) replaces the value in place when the key is
present and appends otherwise, exactly as a Python `dict` does.
-/

set_option maxRecDepth 10000
set_option linter.unusedSectionVars false

deriving instance DecidableEq for Except

/-- Association-list lookup: first entry with the given key (Python `d[k]` /
`k in d`). -/
def lookupA {κ α : Type} [DecidableEq κ] : List (κ × α) → κ → Option α
  | [], _ => none
  | (k, v) :: rest, k' => if k' = k then some v else lookupA rest k'

/-- Association-list assignment (Python `d[k] = v`): replace the first entry
with the key in place, append when absent. -/
def updateA {κ α : Type} [DecidableEq κ] : List (κ × α) → κ → α → List (κ × α)
  | [], k, v => [(k, v)]
  | (k0, v0) :: rest, k, v =>
    if k0 = k then (k, v) :: rest else (k0, v0) :: updateA rest k v

/-- Association-list deletion (Python `del d[k]` with the key present):
remove the first entry with the key. -/
def eraseA {κ α : Type} [DecidableEq κ] : List (κ × α) → κ → List (κ × α)
  | [], _ => []
  | (k0, v0) :: rest, k => if k0 = k then rest else (k0, v0) :: eraseA rest k

/-- The keys of an association list, in order. -/
def keysA {κ α : Type} (m : List (κ × α)) : List κ := m.map Prod.fst

/-- A well-formed Python dict never has a duplicated key. -/
def NodupKeys {κ α : Type} (m : List (κ × α)) : Prop := (keysA m).Nodup

/-! ### String helpers mirroring the Python string primitives -/

/-- The whitespace characters of Python `str.split()` (ASCII fragment). -/
def pyIsSpace (c : Char) : Bool :=
  c = ' ' || c = '\t' || c = '\r' || c = '\x0b' || c = '\x0c'

/-- Helper for `pySplit`: accumulate the current word (reversed). -/
def pySplitAux : List Char → List Char → List String
  | [], [] => []
  | [], cur => [String.mk cur.reverse]
  | c :: rest, cur =>
    if pyIsSpace c then
      match cur with
      | [] => pySplitAux rest []
      | _ => String.mk cur.reverse :: pySplitAux rest []
    else pySplitAux rest (c :: cur)

/-- Python `line.split()`: maximal runs of non-whitespace characters.  The
source calls `line.split(maxsplit=3)`; the two agree on the first three
tokens and on whether at least three tokens exist, which is all the parser
reads. -/
def pySplit (line : String) : List String := pySplitAux line.data []

/-- Helper for `splitLines`: split at every newline character. -/
def splitLinesAux : List Char → List Char → List String
  | [], cur => [String.mk cur.reverse]
  | c :: rest, cur =>
    if c = '\n' then String.mk cur.reverse :: splitLinesAux rest []
    else splitLinesAux rest (c :: cur)

/-- Python `str.splitlines()`, with `'\n'` as the line break; a `'\r'` left
at the end of a line is consumed as whitespace by `pySplit`. -/
def splitLines (s : String) : List String := splitLinesAux s.data []

/-! ### `parse_bjobs` -/

/-- The `JobState` literal of the driver: the nine status strings bjobs can
legitimately report. -/
def jobStatesList : List String :=
  ["EXIT", "DONE", "PEND", "RUN", "ZOMBI", "PDONE", "SSUSP", "USUSP", "UNKWN"]

/-- One iteration of the loop body of `parse_bjobs`: the entry contributed
by a single line of bjobs output, if any.  A line is skipped when it is
empty or does not start with a digit, has fewer than three tokens, or names
a state outside `jobStatesList` (the latter is logged as an unknown state
and ignored). -/
def lineEntry (line : String) : Option (String × String) :=
  match line.data with
  | [] => none
  | c :: _ =>
    if c.isDigit then
      match pySplit line with
      | t0 :: _ :: t2 :: _ =>
        if t0 = "" ∨ t2 = "" then none
        else if t2 ∈ jobStatesList then some (t0, t2) else none
      | _ => none
    else none

/-- The function `parse_bjobs`: fold the per-line entries into a dict keyed by job id.
The Python function returns `{"jobs": data}`; this is the `data` mapping. -/
def parse_bjobs (bjobs_output : String) : List (String × String) :=
  (splitLines bjobs_output).foldl
    (fun data line =>
      match lineEntry line with
      | some kv => updateA data kv.1 kv.2
      | none => data) []

/-! ### The `_Stat` pydantic model -/

/-- The `job_state` literal of `FinishedJob`. -/
inductive FinJobState
  | DONE
  | EXIT
deriving DecidableEq

/-- The discriminated union `AnyJob = FinishedJob | QueuedJob | RunningJob`,
discriminated on the `job_state` field. -/
inductive AnyJob
  | FinishedJob (job_state : FinJobState)
  | QueuedJob
  | RunningJob
deriving DecidableEq

/-- The `job_state` string of an `AnyJob` value. -/
def AnyJob.job_state : AnyJob → String
  | .FinishedJob .DONE => "DONE"
  | .FinishedJob .EXIT => "EXIT"
  | .QueuedJob => "PEND"
  | .RunningJob => "RUN"

/-- Pydantic validation of one `job_state` string against `AnyJob`.  Only
`DONE`, `EXIT`, `PEND` and `RUN` are accepted; the five remaining members
of `JobState` (`ZOMBI`, `PDONE`, `SSUSP`, `USUSP`, `UNKWN`) pass
`parse_bjobs` but fail this validation. -/
def anyJobOfState : String → Option AnyJob
  | "DONE" => some (.FinishedJob .DONE)
  | "EXIT" => some (.FinishedJob .EXIT)
  | "PEND" => some .QueuedJob
  | "RUN" => some .RunningJob
  | _ => none

/-- The validation `_Stat(**parse_bjobs(...))`: validate every entry of the parsed mapping,
raising (a pydantic `ValidationError`) when any `job_state` is not one of
the four states `AnyJob` models. -/
def mkStat : List (String × String) → Except String (List (String × AnyJob))
  | [] => .ok []
  | (k, v) :: rest =>
    match anyJobOfState v with
    | none => .error ("1 validation error for _Stat: job_state " ++ v)
    | some j => do
      let r ← mkStat rest
      .ok ((k, j) :: r)

/-! ### Events and driver state -/

/-- Modelled from the spec: the event variants of `ert.scheduler.event`
(`StartedEvent`, `FinishedEvent`), whose module is not among the sampled
sources — "Event: tagged variant — `Started{iens}`,
`Finished{iens, returncode, aborted}`". -/
inductive Event
  | StartedEvent (iens : Nat)
  | FinishedEvent (iens : Nat) (returncode : Int) (aborted : Bool)
deriving DecidableEq

/-- The realization index an event reports on. -/
def evIens : Event → Nat
  | .StartedEvent iens => iens
  | .FinishedEvent iens _ _ => iens

/-- The mutable state of one `LsfDriver`: `_jobs` maps an LSF job id to
`(iens, last-known job state string)`, `_iens2jobid` maps a realization
index to its LSF job id. -/
structure DriverState where
  jobs : List (String × (Nat × String))
  iens2jobid : List (Nat × String)
deriving DecidableEq

/-- The driver state set up by `LsfDriver.__init__`: both dicts empty. -/
def initState : DriverState := ⟨[], []⟩

/-! ### `LsfDriver.poll` (one cycle) -/

/-- The body of the `for job_id, job in stat.jobs.items()` loop of
`LsfDriver.poll`, for a single entry.  Returns the updated driver state and
the event put on the queue, if any; fails (Python `KeyError`) when a
finished job's `iens` is absent from `_iens2jobid`, as the log-message
lookup `self._iens2jobid[iens]` and `del self._iens2jobid[iens]` would
raise. -/
def pollOne (st : DriverState) (entry : String × AnyJob) :
    Except String (DriverState × Option Event) :=
  match lookupA st.jobs entry.1 with
  | none => .ok (st, none)
  | some (iens, old_state) =>
    let new_state := (entry.2).job_state
    if old_state = new_state then .ok (st, none)
    else
      let st1 : DriverState :=
        { st with jobs := updateA st.jobs entry.1 (iens, new_state) }
      match entry.2 with
      | .RunningJob => .ok (st1, some (.StartedEvent iens))
      | .QueuedJob => .ok (st1, none)
      | .FinishedJob _ =>
        match lookupA st1.iens2jobid iens with
        | none => .error "KeyError"
        | some _ =>
          .ok ({ jobs := eraseA st1.jobs entry.1,
                 iens2jobid := eraseA st1.iens2jobid iens },
               some (.FinishedEvent iens (if new_state = "EXIT" then 1 else 0)
                 (new_state = "EXIT")))

/-- The whole loop of one poll cycle, folding `pollOne` over the validated
entries and collecting the events in queue order. -/
def pollFold : DriverState → List (String × AnyJob) →
    Except String (DriverState × List Event)
  | st, [] => .ok (st, [])
  | st, e :: rest => do
    let (st1, ev) ← pollOne st e
    let (st2, evs) ← pollFold st1 rest
    .ok (st2, ev.toList ++ evs)

/-- The set difference `set(self._jobs) - set(stat.jobs.keys())`: the tracked job ids (after
the loop) that the bjobs response did not mention, logged as a warning. -/
def missingIds (jobs : List (String × (Nat × String)))
    (stat : List (String × AnyJob)) : List String :=
  (keysA jobs).filter (fun k => (lookupA stat k).isNone)

/-- One cycle of `LsfDriver.poll` given the decoded stdout of bjobs
(lines 196–236): parse, validate as `_Stat`, run the event loop, and
compute the missing-ids warning.  A nonzero bjobs returncode is only
logged (lines 190–195) and does not affect the cycle. -/
def pollStep (s : DriverState) (bjobs_stdout : String) :
    Except String (DriverState × List Event × List String) := do
  let stat ← mkStat (parse_bjobs bjobs_stdout)
  let (s', evs) ← pollFold s stat
  .ok (s', evs, missingIds s'.jobs stat)

/-! ### The bsub stdout regex of `LsfDriver.submit`

`re.search("Job <([0-9]+)> is submitted to .+ queue", stdout)`: the leftmost
match of the pattern, whose only capture group is the digit run.  `[0-9]+`
is effectively possessive here (a shorter digit run is followed by a digit,
never by `>`), and `.` does not match a newline. -/

/-- Match a literal character sequence at the front, returning the rest. -/
def dropLit : List Char → List Char → Option (List Char)
  | [], l => some l
  | _ :: _, [] => none
  | p :: ps, c :: cs => if c = p then dropLit ps cs else none

/-- Match `.+ queue` at the front: one or more non-newline characters
followed by the literal `" queue"`. -/
def dotThenQueue : List Char → Bool
  | [] => false
  | c :: rest =>
    if c = '\n' then false
    else (dropLit (" queue").data rest).isSome || dotThenQueue rest

/-- Match the whole bsub pattern anchored at the front, returning the
captured job id. -/
def bsubMatchAt (l : List Char) : Option String := do
  let r1 ← dropLit ("Job <").data l
  let digits := r1.takeWhile Char.isDigit
  if digits.isEmpty then none
  else do
    let r2 ← dropLit ("> is submitted to ").data (r1.dropWhile Char.isDigit)
    if dotThenQueue r2 then some (String.mk digits) else none

/-- The search `re.search`: try the pattern at every start position, left to right. -/
def bsubSearch : List Char → Option String
  | [] => none
  | c :: rest =>
    match bsubMatchAt (c :: rest) with
    | some j => some j
    | none => bsubSearch rest

/-- The job id captured from bsub stdout by `LsfDriver.submit`, if any. -/
def bsub_job_id (stdout : String) : Option String := bsubSearch stdout.data

/-! ### `LsfDriver.submit` -/

/-- The observed outcome of the bsub subprocess: returncode and decoded
stdout/stderr. -/
structure BsubResult where
  returncode : Int
  stdout : String
  stderr : String
deriving DecidableEq

/-- The filename constant `LSF_INFO_JSON_FILENAME`. -/
def LSF_INFO_JSON_FILENAME : String := "lsf_info.json"

/-- The text `json.dumps({"job_id": job_id})` writes for a string job id. -/
def lsfInfoJson (job_id : String) : String :=
  "\x7b\"job_id\": \"" ++ job_id ++ "\"\x7d"

/-- The coroutine `LsfDriver.submit(iens, executable, ...)` given the bsub subprocess
outcome: raises when bsub exits nonzero or its stdout does not match the
job-id pattern; otherwise returns the new driver state together with the
metadata file written into `runpath` (path and contents), when a runpath
was given.  All mutations happen after the two raise points. -/
def submit (s : DriverState) (iens : Nat) (res : BsubResult)
    (runpath : Option String) :
    Except String (DriverState × Option (String × String)) :=
  if res.returncode ≠ 0 then .error res.stderr
  else
    match bsub_job_id res.stdout with
    | none => .error ("Could not understand '" ++ res.stdout ++ "' from bsub")
    | some job_id =>
      .ok ({ jobs := updateA s.jobs job_id (iens, "PEND"),
             iens2jobid := updateA s.iens2jobid iens job_id },
           runpath.map
             (fun rp => (rp ++ "/" ++ LSF_INFO_JSON_FILENAME, lsfInfoJson job_id)))

/-! ### `LsfDriver.kill` -/

/-- The observed outcome of the bkill subprocess. -/
structure BkillResult where
  returncode : Int
  stdout : String
  stderr : String
deriving DecidableEq

/-- How one call of `LsfDriver.kill` returned (every branch returns `None`
in Python; this records which logged branch was taken). -/
inductive KillResult
  | missingJobId
  | bkillFailed
  | unrecognisedOutput
  | issued
deriving DecidableEq

/-- Literal string matching at the front (`re.match` of a pattern with no
metacharacters: the driver's job ids are digit strings captured by
`bsub_job_id`). -/
def isStrPref (p s : String) : Bool := (dropLit p.data s.data).isSome

/-- The coroutine `LsfDriver.kill(iens)` given the bkill subprocess outcome: a logged
no-op when `iens` has no job id; otherwise runs bkill and logs on a nonzero
returncode or unrecognised stdout.  No branch touches the tracking maps or
puts an event on the queue. -/
def kill (s : DriverState) (iens : Nat) (res : BkillResult) :
    DriverState × List Event × KillResult :=
  match lookupA s.iens2jobid iens with
  | none => (s, [], .missingJobId)
  | some job_id =>
    if res.returncode ≠ 0 then (s, [], .bkillFailed)
    else if isStrPref ("Job <" ++ job_id ++ "> is being terminated") res.stdout
    then (s, [], .issued)
    else (s, [], .unrecognisedOutput)

/-! ### Operation traces over one driver instance -/

/-- One externally-triggered driver operation, carrying the backend
subprocess outcome it observes. -/
inductive DriverOp
  | submitOp (iens : Nat) (res : BsubResult) (runpath : Option String)
  | pollOp (bjobs_stdout : String)
  | killOp (iens : Nat) (res : BkillResult)
deriving DecidableEq

/-- The driver state after one operation.  A failed `submit` and a poll
cycle whose `_Stat` validation fails leave the state unchanged, as all
their mutations come after the raise point; the in-loop `KeyError` of
`poll` cannot occur in a well-formed state (`pollFold_ok_of_WF`). -/
def applyOp (s : DriverState) : DriverOp → DriverState
  | .submitOp iens res rp =>
    match submit s iens res rp with
    | .ok (s', _) => s'
    | .error _ => s
  | .pollOp out =>
    match pollStep s out with
    | .ok (s', _, _) => s'
    | .error _ => s
  | .killOp iens res => (kill s iens res).1

/-- The driver state after a sequence of operations. -/
def applyOps (s : DriverState) (ops : List DriverOp) : DriverState :=
  ops.foldl applyOp s

/-- The scheduler-side discipline for one operation: a realization is
submitted only while it has no tracked attempt, and the backend hands out a
job id that is not currently tracked ("identifiers may be reused across
attempts but never concurrently"). -/
def opOK (s : DriverState) : DriverOp → Bool
  | .submitOp iens res _ =>
    (lookupA s.iens2jobid iens).isNone &&
      (bsub_job_id res.stdout).all (fun j => (lookupA s.jobs j).isNone)
  | .pollOp _ => true
  | .killOp _ _ => true

/-- The scheduler-side discipline along a whole trace. -/
def traceOK : DriverState → List DriverOp → Bool
  | _, [] => true
  | s, op :: rest => opOK s op && traceOK (applyOp s op) rest

/-! ### Well-formedness of the driver state -/

/-- The two tracking dicts are mutually inverse: every `_jobs` entry's
`iens` maps back to its job id, and every `_iens2jobid` entry's job id is
tracked with that `iens`. -/
def InvMaps (s : DriverState) : Prop :=
  (∀ p ∈ s.jobs, lookupA s.iens2jobid p.2.1 = some p.1) ∧
  (∀ q ∈ s.iens2jobid, ∃ r ∈ s.jobs, r.1 = q.2 ∧ r.2.1 = q.1)

/-- Well-formed driver state: both dicts have no duplicated keys and are
mutually inverse. -/
def WF (s : DriverState) : Prop :=
  NodupKeys s.jobs ∧ NodupKeys s.iens2jobid ∧ InvMaps s

/-- The auxiliary per-line qualification read off `parse_bjobs`: a line
contributes an entry iff `lineEntry` accepts it. -/
def entriesOf (out : String) : List (String × String) :=
  (splitLines out).filterMap lineEntry

/-- First-some choice on options (used to state last-wins lookups). -/
def oElse {α : Type} : Option α → Option α → Option α
  | some v, _ => some v
  | none, b => b

instance {κ α : Type} [DecidableEq κ] (m : List (κ × α)) :
    Decidable (NodupKeys m) := by
  unfold NodupKeys
  infer_instance

instance (s : DriverState) : Decidable (InvMaps s) := by
  unfold InvMaps
  infer_instance

instance (s : DriverState) : Decidable (WF s) := by
  unfold WF
  infer_instance

/-! ### Lemmas about association lists -/

section AssocLemmas

variable {κ α : Type} [DecidableEq κ]

theorem mem_keysA_of_mem {m : List (κ × α)} {p : κ × α} (hp : p ∈ m) :
    p.1 ∈ keysA m :=
  List.mem_map_of_mem Prod.fst hp

theorem lookupA_none_iff {m : List (κ × α)} {k : κ} :
    lookupA m k = none ↔ k ∉ keysA m := by
  induction m with
  | nil => simp [lookupA, keysA]
  | cons hd tl ih =>
    obtain ⟨k0, v0⟩ := hd
    by_cases h : k = k0
    · subst h
      simp [lookupA, keysA]
    · simp [lookupA, keysA, h, ih]

theorem mem_of_lookupA {m : List (κ × α)} {k : κ} {v : α}
    (h : lookupA m k = some v) : (k, v) ∈ m := by
  induction m with
  | nil => simp [lookupA] at h
  | cons hd tl ih =>
    obtain ⟨k0, v0⟩ := hd
    by_cases hk : k = k0
    · subst hk
      simp [lookupA] at h
      simp [h]
    · simp [lookupA, hk] at h
      exact List.mem_cons_of_mem _ (ih h)

theorem nodupKeys_cons {k0 : κ} {v0 : α} {tl : List (κ × α)}
    (h : NodupKeys ((k0, v0) :: tl)) : k0 ∉ keysA tl ∧ NodupKeys tl := by
  simpa [NodupKeys, keysA, List.nodup_cons] using h

theorem lookupA_eq_some_of_mem {m : List (κ × α)} {k : κ} {v : α}
    (hn : NodupKeys m) (hm : (k, v) ∈ m) : lookupA m k = some v := by
  induction m with
  | nil => simp at hm
  | cons hd tl ih =>
    obtain ⟨k0, v0⟩ := hd
    obtain ⟨hk0, htl⟩ := nodupKeys_cons hn
    rcases List.mem_cons.1 hm with h | h
    · obtain ⟨h1, h2⟩ := Prod.mk.injEq .. ▸ h
      subst h1; subst h2
      simp [lookupA]
    · have hk : k ≠ k0 := by
        rintro rfl
        exact hk0 (mem_keysA_of_mem h)
      simp [lookupA, hk, ih htl h]

theorem lookupA_update_self (m : List (κ × α)) (k : κ) (v : α) :
    lookupA (updateA m k v) k = some v := by
  induction m with
  | nil => simp [updateA, lookupA]
  | cons hd tl ih =>
    obtain ⟨k0, v0⟩ := hd
    by_cases h : k0 = k
    · simp [updateA, h, lookupA]
    · have h' : ¬ k = k0 := fun e => h e.symm
      simp [updateA, h, lookupA, h', ih]

theorem lookupA_update_ne (m : List (κ × α)) (k : κ) (v : α) {k' : κ}
    (h : k' ≠ k) : lookupA (updateA m k v) k' = lookupA m k' := by
  induction m with
  | nil => simp [updateA, lookupA, h]
  | cons hd tl ih =>
    obtain ⟨k0, v0⟩ := hd
    by_cases h0 : k0 = k
    · subst h0
      simp [updateA, lookupA, h]
    · by_cases h1 : k' = k0
      · simp [updateA, h0, lookupA, h1]
      · simp [updateA, h0, lookupA, h1, ih]

theorem updateA_of_not_mem {m : List (κ × α)} {k : κ} (v : α)
    (h : k ∉ keysA m) : updateA m k v = m ++ [(k, v)] := by
  induction m with
  | nil => simp [updateA]
  | cons hd tl ih =>
    obtain ⟨k0, v0⟩ := hd
    simp [keysA] at h
    push_neg at h
    obtain ⟨h1, h2⟩ := h
    have h1' : k0 ≠ k := fun e => h1 e.symm
    simp [updateA, h1', ih (by simpa [keysA] using h2)]

theorem keysA_update_of_mem {m : List (κ × α)} {k : κ} (v : α)
    (h : k ∈ keysA m) : keysA (updateA m k v) = keysA m := by
  induction m with
  | nil => simp [keysA] at h
  | cons hd tl ih =>
    obtain ⟨k0, v0⟩ := hd
    by_cases h0 : k0 = k
    · simp [updateA, h0, keysA]
    · have h1 : k ≠ k0 := fun e => h0 e.symm
      have htl : k ∈ keysA tl := by simpa [keysA, h1] using h
      have ih' := ih htl
      simp only [updateA, if_neg h0, keysA, List.map_cons]
      simp only [keysA] at ih'
      rw [ih']

theorem nodupKeys_updateA {m : List (κ × α)} (k : κ) (v : α)
    (h : NodupKeys m) : NodupKeys (updateA m k v) := by
  by_cases hm : k ∈ keysA m
  · rw [NodupKeys, keysA_update_of_mem v hm]
    exact h
  · rw [updateA_of_not_mem v hm]
    have hk : keysA (m ++ [(k, v)]) = keysA m ++ [k] := by simp [keysA]
    rw [NodupKeys, hk]
    simp only [List.nodup_append, List.nodup_cons, List.not_mem_nil,
      not_false_iff, List.nodup_nil, true_and, List.disjoint_singleton]
    exact ⟨h, by simpa using hm⟩

theorem mem_updateA_self (m : List (κ × α)) (k : κ) (v : α) :
    (k, v) ∈ updateA m k v := by
  induction m with
  | nil => simp [updateA]
  | cons hd tl ih =>
    obtain ⟨k0, v0⟩ := hd
    by_cases h : k0 = k
    · simp [updateA, h]
    · simp [updateA, h, ih]

theorem mem_updateA_cases {m : List (κ × α)} {k : κ} {v : α} {p : κ × α}
    (hp : p ∈ updateA m k v) : p = (k, v) ∨ p ∈ m := by
  induction m with
  | nil => simpa [updateA] using hp
  | cons hd tl ih =>
    obtain ⟨k0, v0⟩ := hd
    by_cases h : k0 = k
    · simp [updateA, h] at hp
      rcases hp with hp | hp
      · exact Or.inl (by simp [hp])
      · exact Or.inr (List.mem_cons_of_mem _ hp)
    · simp [updateA, h] at hp
      rcases hp with hp | hp
      · exact Or.inr (by simp [hp])
      · rcases ih hp with h1 | h1
        · exact Or.inl h1
        · exact Or.inr (List.mem_cons_of_mem _ h1)

theorem mem_updateA_of_mem_ne {m : List (κ × α)} {k : κ} (v : α) {p : κ × α}
    (hp : p ∈ m) (hne : p.1 ≠ k) : p ∈ updateA m k v := by
  induction m with
  | nil => simp at hp
  | cons hd tl ih =>
    obtain ⟨k0, v0⟩ := hd
    rcases List.mem_cons.1 hp with h | h
    · subst h
      have h0 : k0 ≠ k := hne
      simp [updateA, h0]
    · by_cases h0 : k0 = k
      · simp [updateA, h0]
        exact Or.inr h
      · simp [updateA, h0]
        exact Or.inr (ih h)

theorem eraseA_sublist (m : List (κ × α)) (k : κ) :
    List.Sublist (eraseA m k) m := by
  induction m with
  | nil => simp [eraseA]
  | cons hd tl ih =>
    obtain ⟨k0, v0⟩ := hd
    by_cases h : k0 = k
    · simp only [eraseA, if_pos h]
      exact List.sublist_cons_self _ _
    · simp only [eraseA, if_neg h]
      exact List.Sublist.cons₂ _ ih

theorem mem_of_mem_eraseA {m : List (κ × α)} {k : κ} {p : κ × α}
    (hp : p ∈ eraseA m k) : p ∈ m :=
  (eraseA_sublist m k).subset hp

theorem nodupKeys_eraseA {m : List (κ × α)} (k : κ) (h : NodupKeys m) :
    NodupKeys (eraseA m k) :=
  List.Nodup.sublist ((eraseA_sublist m k).map Prod.fst) h

theorem lookupA_eraseA_self {m : List (κ × α)} {k : κ} (h : NodupKeys m) :
    lookupA (eraseA m k) k = none := by
  induction m with
  | nil => simp [eraseA, lookupA]
  | cons hd tl ih =>
    obtain ⟨k0, v0⟩ := hd
    obtain ⟨hk0, htl⟩ := nodupKeys_cons h
    by_cases h0 : k0 = k
    · subst h0
      simp only [eraseA, if_pos rfl]
      exact lookupA_none_iff.2 hk0
    · have h1 : ¬ k = k0 := fun e => h0 e.symm
      simp only [eraseA, if_neg h0, lookupA, if_neg h1]
      exact ih htl

theorem lookupA_eraseA_ne {m : List (κ × α)} {k k' : κ} (h : k' ≠ k) :
    lookupA (eraseA m k) k' = lookupA m k' := by
  induction m with
  | nil => simp [eraseA]
  | cons hd tl ih =>
    obtain ⟨k0, v0⟩ := hd
    by_cases h0 : k0 = k
    · subst h0
      simp [eraseA, lookupA, h]
    · by_cases h1 : k' = k0
      · simp only [eraseA, if_neg h0, lookupA, if_pos h1]
      · simp only [eraseA, if_neg h0, lookupA, if_neg h1]
        exact ih

theorem mem_eraseA_of_mem_ne {m : List (κ × α)} {k : κ} {p : κ × α}
    (hp : p ∈ m) (hne : p.1 ≠ k) : p ∈ eraseA m k := by
  induction m with
  | nil => simp at hp
  | cons hd tl ih =>
    obtain ⟨k0, v0⟩ := hd
    rcases List.mem_cons.1 hp with h | h
    · subst h
      have h0 : k0 ≠ k := hne
      simp [eraseA, h0]
    · by_cases h0 : k0 = k
      · simpa [eraseA, h0] using h
      · simp only [eraseA, if_neg h0]
        exact List.mem_cons_of_mem _ (ih h)

theorem key_ne_of_mem_eraseA {m : List (κ × α)} {k : κ} {p : κ × α}
    (hn : NodupKeys m) (hp : p ∈ eraseA m k) : p.1 ≠ k := by
  rintro rfl
  have hmem : p.1 ∈ keysA (eraseA m p.1) := mem_keysA_of_mem hp
  exact lookupA_none_iff.1 (lookupA_eraseA_self hn) hmem

theorem lookupA_append (l1 l2 : List (κ × α)) (k : κ) :
    lookupA (l1 ++ l2) k = oElse (lookupA l1 k) (lookupA l2 k) := by
  induction l1 with
  | nil => simp [lookupA, oElse]
  | cons hd tl ih =>
    obtain ⟨k0, v0⟩ := hd
    by_cases h : k = k0
    · simp [lookupA, h, oElse]
    · simp [lookupA, h, ih]

theorem lookupA_single (k k' : κ) (v : α) :
    lookupA [(k, v)] k' = if k' = k then some v else none := by
  simp [lookupA]

theorem lookupA_updateA_eq_oElse (m : List (κ × α)) (k k' : κ) (v : α) :
    lookupA (updateA m k v) k' = oElse (lookupA [(k, v)] k') (lookupA m k') := by
  by_cases h : k' = k
  · subst h
    simp [lookupA_update_self, lookupA, oElse]
  · simp [lookupA_update_ne _ _ _ h, lookupA, h, oElse]

end AssocLemmas

/-! ### Lemmas about `parse_bjobs` -/

theorem parse_foldl_filterMap (lines : List String)
    (acc : List (String × String)) :
    lines.foldl (fun data line =>
        match lineEntry line with
        | some kv => updateA data kv.1 kv.2
        | none => data) acc =
      (lines.filterMap lineEntry).foldl (fun d kv => updateA d kv.1 kv.2) acc := by
  induction lines generalizing acc with
  | nil => simp
  | cons hd tl ih =>
    cases h : lineEntry hd with
    | none => simp [h, ih]
    | some kv => simp [h, ih]

theorem lookupA_foldl_updateA (entries : List (String × String))
    (acc : List (String × String)) (k : String) :
    lookupA (entries.foldl (fun d kv => updateA d kv.1 kv.2) acc) k =
      oElse (lookupA entries.reverse k) (lookupA acc k) := by
  induction entries generalizing acc with
  | nil => simp [lookupA, oElse]
  | cons hd tl ih =>
    simp only [List.foldl_cons, List.reverse_cons, ih, lookupA_append]
    rw [lookupA_updateA_eq_oElse]
    cases lookupA tl.reverse k <;> simp [oElse]

theorem nodupKeys_foldl_updateA (entries : List (String × String))
    (acc : List (String × String)) (h : NodupKeys acc) :
    NodupKeys (entries.foldl (fun d kv => updateA d kv.1 kv.2) acc) := by
  induction entries generalizing acc with
  | nil => exact h
  | cons hd tl ih =>
    exact ih _ (nodupKeys_updateA _ _ h)

/-- The parser `parse_bjobs` never duplicates a job id. -/
theorem nodupKeys_parse_bjobs (out : String) : NodupKeys (parse_bjobs out) := by
  rw [parse_bjobs, parse_foldl_filterMap]
  exact nodupKeys_foldl_updateA _ _ (by simp [NodupKeys, keysA])

/-- The lookup of a parsed job id is decided by the last qualifying line
with that id as its first token. -/
theorem lookupA_parse_bjobs (out : String) (k : String) :
    lookupA (parse_bjobs out) k = lookupA (entriesOf out).reverse k := by
  rw [parse_bjobs, parse_foldl_filterMap, lookupA_foldl_updateA, entriesOf]
  cases lookupA ((splitLines out).filterMap lineEntry).reverse k <;>
    simp [lookupA, oElse]

/-! ### Well-formedness lemmas -/

theorem lookupA_of_mem_key {κ α : Type} [DecidableEq κ] {m : List (κ × α)}
    {k : κ} {r : κ × α} (hn : NodupKeys m) (hr : r ∈ m) (hk : r.1 = k) :
    lookupA m k = some r.2 := by
  subst hk
  exact lookupA_eq_some_of_mem hn (by simpa using hr)

theorem WF_jobs_to_iens {s : DriverState} (h : WF s) {jid : String}
    {iens : Nat} {stx : String} (hl : lookupA s.jobs jid = some (iens, stx)) :
    lookupA s.iens2jobid iens = some jid :=
  h.2.2.1 (jid, (iens, stx)) (mem_of_lookupA hl)

theorem WF_iens_to_jobs {s : DriverState} (h : WF s) {iens : Nat}
    {jid : String} (hl : lookupA s.iens2jobid iens = some jid) :
    ∃ stx, lookupA s.jobs jid = some (iens, stx) := by
  obtain ⟨⟨rj, ri, rs⟩, hr, h1, h2⟩ := h.2.2.2 (iens, jid) (mem_of_lookupA hl)
  have h1' : rj = jid := h1
  have h2' : ri = iens := h2
  subst h1'
  subst h2'
  exact ⟨rs, lookupA_of_mem_key h.1 hr rfl⟩

/-- Updating a tracked job's state string preserves well-formedness. -/
theorem WF_update_state {st : DriverState} {jid : String} {iens : Nat}
    {old new : String} (hWF : WF st)
    (hj : lookupA st.jobs jid = some (iens, old)) :
    WF { st with jobs := updateA st.jobs jid (iens, new) } := by
  have hnj := hWF.1
  have hni := hWF.2.1
  have hinv1 := hWF.2.2.1
  have hinv2 := hWF.2.2.2
  refine ⟨nodupKeys_updateA _ _ hnj, hni, ?_, ?_⟩
  · intro p hp
    rcases mem_updateA_cases hp with h | h
    · subst h
      exact WF_jobs_to_iens hWF hj
    · exact hinv1 p h
  · intro q hq
    obtain ⟨r, hr, hr1, hr2⟩ := hinv2 q hq
    by_cases hjid : r.1 = jid
    · have hr2' : lookupA st.jobs jid = some r.2 := lookupA_of_mem_key hnj hr hjid
      have hre : r.2 = (iens, old) := by
        have := hr2'.symm.trans hj
        simpa using this
      refine ⟨(jid, (iens, new)), mem_updateA_self _ _ _, ?_, ?_⟩
      · rw [← hjid, hr1]
      · rw [← hr2]
        simp [hre]
    · exact ⟨r, mem_updateA_of_mem_ne _ hr hjid, hr1, hr2⟩

/-- Deleting a tracked job id together with its realization's entry in
`_iens2jobid` preserves well-formedness. -/
theorem WF_erase_state {st : DriverState} {jid : String} {iens : Nat}
    {stv : String} (hWF : WF st)
    (hj : lookupA st.jobs jid = some (iens, stv)) :
    WF ⟨eraseA st.jobs jid, eraseA st.iens2jobid iens⟩ := by
  have hnj := hWF.1
  have hni := hWF.2.1
  have hinv1 := hWF.2.2.1
  have hinv2 := hWF.2.2.2
  have hij : lookupA st.iens2jobid iens = some jid := WF_jobs_to_iens hWF hj
  refine ⟨nodupKeys_eraseA _ hnj, nodupKeys_eraseA _ hni, ?_, ?_⟩
  · intro p hp
    have hpm : p ∈ st.jobs := mem_of_mem_eraseA hp
    have hpk : p.1 ≠ jid := key_ne_of_mem_eraseA hnj hp
    have hbase : lookupA st.iens2jobid p.2.1 = some p.1 := hinv1 p hpm
    have hpi : p.2.1 ≠ iens := by
      rintro he
      rw [he, hij] at hbase
      exact hpk (by simpa using hbase.symm)
    rw [lookupA_eraseA_ne hpi]
    exact hbase
  · intro q hq
    have hqm : q ∈ st.iens2jobid := mem_of_mem_eraseA hq
    have hqk : q.1 ≠ iens := key_ne_of_mem_eraseA hni hq
    obtain ⟨r, hr, hr1, hr2⟩ := hinv2 q hqm
    have hrk : r.1 ≠ jid := by
      rintro he
      have hr2' : lookupA st.jobs jid = some r.2 := lookupA_of_mem_key hnj hr he
      have hre : r.2 = (iens, stv) := by
        have := hr2'.symm.trans hj
        simpa using this
      exact hqk (by rw [← hr2, hre])
    exact ⟨r, mem_eraseA_of_mem_ne hr hrk, hr1, hr2⟩

/-! ### Lemmas about one poll-loop iteration -/

theorem pollOne_untracked {st : DriverState} {jid : String} (job : AnyJob)
    (h : lookupA st.jobs jid = none) : pollOne st (jid, job) = .ok (st, none) := by
  simp [pollOne, h]

theorem pollOne_unchanged {st : DriverState} {jid : String} {iens : Nat}
    {old : String} (job : AnyJob)
    (hj : lookupA st.jobs jid = some (iens, old))
    (he : old = job.job_state) : pollOne st (jid, job) = .ok (st, none) := by
  simp [pollOne, hj, he]

theorem pollOne_running {st : DriverState} {jid : String} {iens : Nat}
    {old : String} (hj : lookupA st.jobs jid = some (iens, old))
    (he : old ≠ "RUN") :
    pollOne st (jid, .RunningJob) =
      .ok ({ st with jobs := updateA st.jobs jid (iens, "RUN") },
        some (.StartedEvent iens)) := by
  simp [pollOne, hj, AnyJob.job_state, he]

theorem pollOne_queued {st : DriverState} {jid : String} {iens : Nat}
    {old : String} (hj : lookupA st.jobs jid = some (iens, old))
    (he : old ≠ "PEND") :
    pollOne st (jid, .QueuedJob) =
      .ok ({ st with jobs := updateA st.jobs jid (iens, "PEND") }, none) := by
  simp [pollOne, hj, AnyJob.job_state, he]

theorem pollOne_done {st : DriverState} {jid jid' : String} {iens : Nat}
    {old : String} (hj : lookupA st.jobs jid = some (iens, old))
    (he : old ≠ "DONE") (hij : lookupA st.iens2jobid iens = some jid') :
    pollOne st (jid, .FinishedJob .DONE) =
      .ok (⟨eraseA (updateA st.jobs jid (iens, "DONE")) jid,
            eraseA st.iens2jobid iens⟩,
        some (.FinishedEvent iens 0 false)) := by
  simp [pollOne, hj, AnyJob.job_state, he, hij]

theorem pollOne_exit {st : DriverState} {jid jid' : String} {iens : Nat}
    {old : String} (hj : lookupA st.jobs jid = some (iens, old))
    (he : old ≠ "EXIT") (hij : lookupA st.iens2jobid iens = some jid') :
    pollOne st (jid, .FinishedJob .EXIT) =
      .ok (⟨eraseA (updateA st.jobs jid (iens, "EXIT")) jid,
            eraseA st.iens2jobid iens⟩,
        some (.FinishedEvent iens 1 true)) := by
  simp [pollOne, hj, AnyJob.job_state, he, hij]

theorem pollOne_keyerror {st : DriverState} {jid : String} {iens : Nat}
    {old : String} {fs : FinJobState}
    (hj : lookupA st.jobs jid = some (iens, old))
    (he : old ≠ (AnyJob.FinishedJob fs).job_state)
    (hij : lookupA st.iens2jobid iens = none) :
    pollOne st (jid, .FinishedJob fs) = .error "KeyError" := by
  cases fs <;> simp [pollOne, hj, AnyJob.job_state, he, hij] <;>
    simpa [AnyJob.job_state] using he

/-- Under well-formedness one loop iteration cannot raise. -/
theorem pollOne_ok_of_WF (st : DriverState) (jid : String) (job : AnyJob)
    (hWF : WF st) : ∃ r, pollOne st (jid, job) = .ok r := by
  cases hj : lookupA st.jobs jid with
  | none => exact ⟨_, pollOne_untracked job hj⟩
  | some p =>
    obtain ⟨iens, old⟩ := p
    by_cases he : old = job.job_state
    · exact ⟨_, pollOne_unchanged job hj he⟩
    · have hij : lookupA st.iens2jobid iens = some jid := WF_jobs_to_iens hWF hj
      cases job with
      | RunningJob => exact ⟨_, pollOne_running hj (by simpa [AnyJob.job_state] using he)⟩
      | QueuedJob => exact ⟨_, pollOne_queued hj (by simpa [AnyJob.job_state] using he)⟩
      | FinishedJob fs =>
        cases fs with
        | DONE => exact ⟨_, pollOne_done hj (by simpa [AnyJob.job_state] using he) hij⟩
        | EXIT => exact ⟨_, pollOne_exit hj (by simpa [AnyJob.job_state] using he) hij⟩

/-- One loop iteration preserves well-formedness. -/
theorem pollOne_WF {st st' : DriverState} {jid : String} {job : AnyJob}
    {ev : Option Event} (hWF : WF st)
    (h : pollOne st (jid, job) = .ok (st', ev)) : WF st' := by
  cases hj : lookupA st.jobs jid with
  | none =>
    rw [pollOne_untracked job hj] at h
    simp only [Except.ok.injEq, Prod.mk.injEq] at h
    obtain ⟨rfl, -⟩ := h
    exact hWF
  | some p =>
    obtain ⟨iens, old⟩ := p
    by_cases he : old = job.job_state
    · rw [pollOne_unchanged job hj he] at h
      simp only [Except.ok.injEq, Prod.mk.injEq] at h
      obtain ⟨rfl, -⟩ := h
      exact hWF
    · have hWF1 : WF { st with jobs := updateA st.jobs jid (iens, job.job_state) } :=
        WF_update_state hWF hj
      have hij : lookupA st.iens2jobid iens = some jid := WF_jobs_to_iens hWF hj
      have hup : lookupA (updateA st.jobs jid (iens, job.job_state)) jid =
          some (iens, job.job_state) := lookupA_update_self _ _ _
      cases job with
      | RunningJob =>
        rw [pollOne_running hj (by simpa [AnyJob.job_state] using he)] at h
        simp only [Except.ok.injEq, Prod.mk.injEq] at h
        obtain ⟨rfl, -⟩ := h
        exact hWF1
      | QueuedJob =>
        rw [pollOne_queued hj (by simpa [AnyJob.job_state] using he)] at h
        simp only [Except.ok.injEq, Prod.mk.injEq] at h
        obtain ⟨rfl, -⟩ := h
        exact hWF1
      | FinishedJob fs =>
        cases fs with
        | DONE =>
          rw [pollOne_done hj (by simpa [AnyJob.job_state] using he) hij] at h
          simp only [Except.ok.injEq, Prod.mk.injEq] at h
          obtain ⟨rfl, -⟩ := h
          exact WF_erase_state hWF1 hup
        | EXIT =>
          rw [pollOne_exit hj (by simpa [AnyJob.job_state] using he) hij] at h
          simp only [Except.ok.injEq, Prod.mk.injEq] at h
          obtain ⟨rfl, -⟩ := h
          exact WF_erase_state hWF1 hup

theorem lookupA_eraseA_of_none {κ α : Type} [DecidableEq κ] {m : List (κ × α)}
    {k j : κ} (h : lookupA m j = none) : lookupA (eraseA m k) j = none := by
  rw [lookupA_none_iff] at h ⊢
  intro hmem
  exact h (((eraseA_sublist m k).map Prod.fst).subset hmem)

/-- A job id the driver does not track stays untracked through one loop
iteration. -/
theorem pollOne_jobs_none {st st' : DriverState} {jid : String} {job : AnyJob}
    {ev : Option Event} {j : String}
    (h : pollOne st (jid, job) = .ok (st', ev))
    (hz : lookupA st.jobs j = none) : lookupA st'.jobs j = none := by
  cases hj : lookupA st.jobs jid with
  | none =>
    rw [pollOne_untracked job hj] at h
    simp only [Except.ok.injEq, Prod.mk.injEq] at h
    obtain ⟨rfl, -⟩ := h
    exact hz
  | some p =>
    obtain ⟨iens, old⟩ := p
    have hne : j ≠ jid := by
      rintro rfl
      rw [hz] at hj
      cases hj
    by_cases he : old = job.job_state
    · rw [pollOne_unchanged job hj he] at h
      simp only [Except.ok.injEq, Prod.mk.injEq] at h
      obtain ⟨rfl, -⟩ := h
      exact hz
    · cases job with
      | RunningJob =>
        rw [pollOne_running hj (by simpa [AnyJob.job_state] using he)] at h
        simp only [Except.ok.injEq, Prod.mk.injEq] at h
        obtain ⟨rfl, -⟩ := h
        rw [lookupA_update_ne _ _ _ hne]
        exact hz
      | QueuedJob =>
        rw [pollOne_queued hj (by simpa [AnyJob.job_state] using he)] at h
        simp only [Except.ok.injEq, Prod.mk.injEq] at h
        obtain ⟨rfl, -⟩ := h
        rw [lookupA_update_ne _ _ _ hne]
        exact hz
      | FinishedJob fs =>
        cases hij : lookupA st.iens2jobid iens with
        | none =>
          rw [pollOne_keyerror hj (by cases fs <;> simpa [AnyJob.job_state] using he) hij] at h
          cases h
        | some jid' =>
          cases fs with
          | DONE =>
            rw [pollOne_done hj (by simpa [AnyJob.job_state] using he) hij] at h
            simp only [Except.ok.injEq, Prod.mk.injEq] at h
            obtain ⟨rfl, -⟩ := h
            exact lookupA_eraseA_of_none (by rw [lookupA_update_ne _ _ _ hne]; exact hz)
          | EXIT =>
            rw [pollOne_exit hj (by simpa [AnyJob.job_state] using he) hij] at h
            simp only [Except.ok.injEq, Prod.mk.injEq] at h
            obtain ⟨rfl, -⟩ := h
            exact lookupA_eraseA_of_none (by rw [lookupA_update_ne _ _ _ hne]; exact hz)

/-- A realization index absent from `_iens2jobid` stays absent through one
loop iteration. -/
theorem pollOne_iens_none {st st' : DriverState} {jid : String} {job : AnyJob}
    {ev : Option Event} {i : Nat}
    (h : pollOne st (jid, job) = .ok (st', ev))
    (hz : lookupA st.iens2jobid i = none) : lookupA st'.iens2jobid i = none := by
  cases hj : lookupA st.jobs jid with
  | none =>
    rw [pollOne_untracked job hj] at h
    simp only [Except.ok.injEq, Prod.mk.injEq] at h
    obtain ⟨rfl, -⟩ := h
    exact hz
  | some p =>
    obtain ⟨iens, old⟩ := p
    by_cases he : old = job.job_state
    · rw [pollOne_unchanged job hj he] at h
      simp only [Except.ok.injEq, Prod.mk.injEq] at h
      obtain ⟨rfl, -⟩ := h
      exact hz
    · cases job with
      | RunningJob =>
        rw [pollOne_running hj (by simpa [AnyJob.job_state] using he)] at h
        simp only [Except.ok.injEq, Prod.mk.injEq] at h
        obtain ⟨rfl, -⟩ := h
        exact hz
      | QueuedJob =>
        rw [pollOne_queued hj (by simpa [AnyJob.job_state] using he)] at h
        simp only [Except.ok.injEq, Prod.mk.injEq] at h
        obtain ⟨rfl, -⟩ := h
        exact hz
      | FinishedJob fs =>
        cases hij : lookupA st.iens2jobid iens with
        | none =>
          rw [pollOne_keyerror hj (by cases fs <;> simpa [AnyJob.job_state] using he) hij] at h
          cases h
        | some jid' =>
          cases fs with
          | DONE =>
            rw [pollOne_done hj (by simpa [AnyJob.job_state] using he) hij] at h
            simp only [Except.ok.injEq, Prod.mk.injEq] at h
            obtain ⟨rfl, -⟩ := h
            exact lookupA_eraseA_of_none hz
          | EXIT =>
            rw [pollOne_exit hj (by simpa [AnyJob.job_state] using he) hij] at h
            simp only [Except.ok.injEq, Prod.mk.injEq] at h
            obtain ⟨rfl, -⟩ := h
            exact lookupA_eraseA_of_none hz

/-- One loop iteration touches no `_jobs` entry other than the one it
processes. -/
theorem pollOne_jobs_frame {st st' : DriverState} {jid : String} {job : AnyJob}
    {ev : Option Event} {j : String}
    (h : pollOne st (jid, job) = .ok (st', ev)) (hne : j ≠ jid) :
    lookupA st'.jobs j = lookupA st.jobs j := by
  cases hj : lookupA st.jobs jid with
  | none =>
    rw [pollOne_untracked job hj] at h
    simp only [Except.ok.injEq, Prod.mk.injEq] at h
    obtain ⟨rfl, -⟩ := h
    rfl
  | some p =>
    obtain ⟨iens, old⟩ := p
    by_cases he : old = job.job_state
    · rw [pollOne_unchanged job hj he] at h
      simp only [Except.ok.injEq, Prod.mk.injEq] at h
      obtain ⟨rfl, -⟩ := h
      rfl
    · cases job with
      | RunningJob =>
        rw [pollOne_running hj (by simpa [AnyJob.job_state] using he)] at h
        simp only [Except.ok.injEq, Prod.mk.injEq] at h
        obtain ⟨rfl, -⟩ := h
        exact lookupA_update_ne _ _ _ hne
      | QueuedJob =>
        rw [pollOne_queued hj (by simpa [AnyJob.job_state] using he)] at h
        simp only [Except.ok.injEq, Prod.mk.injEq] at h
        obtain ⟨rfl, -⟩ := h
        exact lookupA_update_ne _ _ _ hne
      | FinishedJob fs =>
        cases hij : lookupA st.iens2jobid iens with
        | none =>
          rw [pollOne_keyerror hj (by cases fs <;> simpa [AnyJob.job_state] using he) hij] at h
          cases h
        | some jid' =>
          cases fs with
          | DONE =>
            rw [pollOne_done hj (by simpa [AnyJob.job_state] using he) hij] at h
            simp only [Except.ok.injEq, Prod.mk.injEq] at h
            obtain ⟨rfl, -⟩ := h
            rw [lookupA_eraseA_ne hne]
            exact lookupA_update_ne _ _ _ hne
          | EXIT =>
            rw [pollOne_exit hj (by simpa [AnyJob.job_state] using he) hij] at h
            simp only [Except.ok.injEq, Prod.mk.injEq] at h
            obtain ⟨rfl, -⟩ := h
            rw [lookupA_eraseA_ne hne]
            exact lookupA_update_ne _ _ _ hne

/-- Any event emitted by one loop iteration reports the realization tracked
under the processed job id. -/
theorem pollOne_event_iens {st st' : DriverState} {jid : String} {job : AnyJob}
    {e : Event} (h : pollOne st (jid, job) = .ok (st', some e)) :
    ∃ old, lookupA st.jobs jid = some (evIens e, old) := by
  cases hj : lookupA st.jobs jid with
  | none =>
    rw [pollOne_untracked job hj] at h
    simp at h
  | some p =>
    obtain ⟨iens, old⟩ := p
    by_cases he : old = job.job_state
    · rw [pollOne_unchanged job hj he] at h
      simp at h
    · cases job with
      | RunningJob =>
        rw [pollOne_running hj (by simpa [AnyJob.job_state] using he)] at h
        simp only [Except.ok.injEq, Prod.mk.injEq, Option.some.injEq] at h
        obtain ⟨-, rfl⟩ := h
        exact ⟨old, rfl⟩
      | QueuedJob =>
        rw [pollOne_queued hj (by simpa [AnyJob.job_state] using he)] at h
        simp at h
      | FinishedJob fs =>
        cases hij : lookupA st.iens2jobid iens with
        | none =>
          rw [pollOne_keyerror hj (by cases fs <;> simpa [AnyJob.job_state] using he) hij] at h
          cases h
        | some jid' =>
          cases fs with
          | DONE =>
            rw [pollOne_done hj (by simpa [AnyJob.job_state] using he) hij] at h
            simp only [Except.ok.injEq, Prod.mk.injEq, Option.some.injEq] at h
            obtain ⟨-, rfl⟩ := h
            exact ⟨old, rfl⟩
          | EXIT =>
            rw [pollOne_exit hj (by simpa [AnyJob.job_state] using he) hij] at h
            simp only [Except.ok.injEq, Prod.mk.injEq, Option.some.injEq] at h
            obtain ⟨-, rfl⟩ := h
            exact ⟨old, rfl⟩

/-- Returncode and aborted flag of any finished event emitted by one loop
iteration: `(1, true)` for `EXIT`, `(0, false)` for `DONE`. -/
theorem pollOne_rc_ab {st st' : DriverState} {jid : String} {job : AnyJob}
    {i : Nat} {rc : Int} {ab : Bool}
    (h : pollOne st (jid, job) = .ok (st', some (.FinishedEvent i rc ab))) :
    (rc = 1 ∧ ab = true) ∨ (rc = 0 ∧ ab = false) := by
  cases hj : lookupA st.jobs jid with
  | none =>
    rw [pollOne_untracked job hj] at h
    simp at h
  | some p =>
    obtain ⟨iens, old⟩ := p
    by_cases he : old = job.job_state
    · rw [pollOne_unchanged job hj he] at h
      simp at h
    · cases job with
      | RunningJob =>
        rw [pollOne_running hj (by simpa [AnyJob.job_state] using he)] at h
        simp at h
      | QueuedJob =>
        rw [pollOne_queued hj (by simpa [AnyJob.job_state] using he)] at h
        simp at h
      | FinishedJob fs =>
        cases hij : lookupA st.iens2jobid iens with
        | none =>
          rw [pollOne_keyerror hj (by cases fs <;> simpa [AnyJob.job_state] using he) hij] at h
          cases h
        | some jid' =>
          cases fs with
          | DONE =>
            rw [pollOne_done hj (by simpa [AnyJob.job_state] using he) hij] at h
            simp only [Except.ok.injEq, Prod.mk.injEq, Option.some.injEq,
              Event.FinishedEvent.injEq] at h
            obtain ⟨-, -, h2, h3⟩ := h
            exact Or.inr ⟨h2.symm, h3.symm⟩
          | EXIT =>
            rw [pollOne_exit hj (by simpa [AnyJob.job_state] using he) hij] at h
            simp only [Except.ok.injEq, Prod.mk.injEq, Option.some.injEq,
              Event.FinishedEvent.injEq] at h
            obtain ⟨-, -, h2, h3⟩ := h
            exact Or.inl ⟨h2.symm, h3.symm⟩

/-- When one loop iteration emits a finished event, it deletes both the
processed job id and the realization's `_iens2jobid` entry in the same
step. -/
theorem pollOne_finished_forgets {st st' : DriverState} {jid : String}
    {job : AnyJob} {i : Nat} {rc : Int} {ab : Bool} (hWF : WF st)
    (h : pollOne st (jid, job) = .ok (st', some (.FinishedEvent i rc ab))) :
    lookupA st'.iens2jobid i = none ∧ lookupA st'.jobs jid = none ∧
    lookupA st.iens2jobid i = some jid := by
  cases hj : lookupA st.jobs jid with
  | none =>
    rw [pollOne_untracked job hj] at h
    simp at h
  | some p =>
    obtain ⟨iens, old⟩ := p
    by_cases he : old = job.job_state
    · rw [pollOne_unchanged job hj he] at h
      simp at h
    · have hij : lookupA st.iens2jobid iens = some jid :=
        WF_jobs_to_iens hWF (by rw [hj])
      have hnup : NodupKeys (updateA st.jobs jid (iens, job.job_state)) :=
        nodupKeys_updateA _ _ hWF.1
      cases job with
      | RunningJob =>
        rw [pollOne_running hj (by simpa [AnyJob.job_state] using he)] at h
        simp at h
      | QueuedJob =>
        rw [pollOne_queued hj (by simpa [AnyJob.job_state] using he)] at h
        simp at h
      | FinishedJob fs =>
        cases fs with
        | DONE =>
          rw [pollOne_done hj (by simpa [AnyJob.job_state] using he) hij] at h
          simp only [Except.ok.injEq, Prod.mk.injEq, Option.some.injEq,
            Event.FinishedEvent.injEq] at h
          obtain ⟨rfl, rfl, -, -⟩ := h
          exact ⟨lookupA_eraseA_self hWF.2.1,
            lookupA_eraseA_self (by simpa [AnyJob.job_state] using hnup), hij⟩
        | EXIT =>
          rw [pollOne_exit hj (by simpa [AnyJob.job_state] using he) hij] at h
          simp only [Except.ok.injEq, Prod.mk.injEq, Option.some.injEq,
            Event.FinishedEvent.injEq] at h
          obtain ⟨rfl, rfl, -, -⟩ := h
          exact ⟨lookupA_eraseA_self hWF.2.1,
            lookupA_eraseA_self (by simpa [AnyJob.job_state] using hnup), hij⟩

/-- How one loop iteration can change a single `_iens2jobid` entry: either
it is untouched, or it was the processed job's entry and both it and the
job id were deleted. -/
theorem pollOne_iens_lookup {st st' : DriverState} {jid : String}
    {job : AnyJob} {ev : Option Event} (hWF : WF st)
    (h : pollOne st (jid, job) = .ok (st', ev)) (i : Nat) :
    lookupA st'.iens2jobid i = lookupA st.iens2jobid i ∨
    (lookupA st'.iens2jobid i = none ∧ lookupA st.iens2jobid i = some jid ∧
      lookupA st'.jobs jid = none) := by
  cases hj : lookupA st.jobs jid with
  | none =>
    rw [pollOne_untracked job hj] at h
    simp only [Except.ok.injEq, Prod.mk.injEq] at h
    obtain ⟨rfl, -⟩ := h
    exact Or.inl rfl
  | some p =>
    obtain ⟨iens, old⟩ := p
    by_cases he : old = job.job_state
    · rw [pollOne_unchanged job hj he] at h
      simp only [Except.ok.injEq, Prod.mk.injEq] at h
      obtain ⟨rfl, -⟩ := h
      exact Or.inl rfl
    · have hij : lookupA st.iens2jobid iens = some jid :=
        WF_jobs_to_iens hWF (by rw [hj])
      have hnup : NodupKeys (updateA st.jobs jid (iens, job.job_state)) :=
        nodupKeys_updateA _ _ hWF.1
      cases job with
      | RunningJob =>
        rw [pollOne_running hj (by simpa [AnyJob.job_state] using he)] at h
        simp only [Except.ok.injEq, Prod.mk.injEq] at h
        obtain ⟨rfl, -⟩ := h
        exact Or.inl rfl
      | QueuedJob =>
        rw [pollOne_queued hj (by simpa [AnyJob.job_state] using he)] at h
        simp only [Except.ok.injEq, Prod.mk.injEq] at h
        obtain ⟨rfl, -⟩ := h
        exact Or.inl rfl
      | FinishedJob fs =>
        have herase : ∀ st'' : DriverState,
            st'' = (⟨eraseA (updateA st.jobs jid (iens, (AnyJob.FinishedJob fs).job_state)) jid,
              eraseA st.iens2jobid iens⟩ : DriverState) →
            lookupA st''.iens2jobid i = lookupA st.iens2jobid i ∨
            (lookupA st''.iens2jobid i = none ∧
              lookupA st.iens2jobid i = some jid ∧ lookupA st''.jobs jid = none) := by
          rintro _ rfl
          by_cases hi : i = iens
          · subst hi
            exact Or.inr ⟨lookupA_eraseA_self hWF.2.1, hij,
              lookupA_eraseA_self hnup⟩
          · exact Or.inl (lookupA_eraseA_ne hi)
        cases fs with
        | DONE =>
          rw [pollOne_done hj (by simpa [AnyJob.job_state] using he) hij] at h
          simp only [Except.ok.injEq, Prod.mk.injEq] at h
          obtain ⟨rfl, -⟩ := h
          exact herase _ rfl
        | EXIT =>
          rw [pollOne_exit hj (by simpa [AnyJob.job_state] using he) hij] at h
          simp only [Except.ok.injEq, Prod.mk.injEq] at h
          obtain ⟨rfl, -⟩ := h
          exact herase _ rfl

/-! ### Lemmas about the whole poll loop -/

theorem except_bind_ok {ε α β : Type} (a : α) (f : α → Except ε β) :
    (Except.ok a >>= f) = f a := rfl

theorem except_bind_error {ε α β : Type} (e : ε) (f : α → Except ε β) :
    (Except.error e >>= f : Except ε β) = Except.error e := rfl

theorem pollFold_cons_inv {st st' : DriverState} {e : String × AnyJob}
    {rest : List (String × AnyJob)} {evs : List Event}
    (h : pollFold st (e :: rest) = .ok (st', evs)) :
    ∃ st1 ev evs2, pollOne st e = .ok (st1, ev) ∧
      pollFold st1 rest = .ok (st', evs2) ∧ evs = ev.toList ++ evs2 := by
  cases h1 : pollOne st e with
  | error err => simp [pollFold, h1, except_bind_error] at h
  | ok r =>
    obtain ⟨st1, ev⟩ := r
    cases h2 : pollFold st1 rest with
    | error err => simp [pollFold, h1, h2, except_bind_ok, except_bind_error] at h
    | ok r2 =>
      obtain ⟨st2, evs2⟩ := r2
      simp only [pollFold, h1, h2, except_bind_ok, Except.ok.injEq,
        Prod.mk.injEq] at h
      obtain ⟨rfl, rfl⟩ := h
      exact ⟨st1, ev, evs2, rfl, h2, rfl⟩

/-- Under well-formedness the poll loop cannot raise. -/
theorem pollFold_ok_of_WF (stat : List (String × AnyJob)) (st : DriverState)
    (hWF : WF st) : ∃ r, pollFold st stat = .ok r := by
  induction stat generalizing st with
  | nil => exact ⟨(st, []), rfl⟩
  | cons e rest ih =>
    obtain ⟨jid, job⟩ := e
    obtain ⟨⟨st1, ev⟩, h1⟩ := pollOne_ok_of_WF st jid job hWF
    obtain ⟨⟨st2, evs⟩, h2⟩ := ih st1 (pollOne_WF hWF h1)
    exact ⟨(st2, ev.toList ++ evs), by simp [pollFold, h1, h2, except_bind_ok]⟩

/-- The poll loop preserves well-formedness. -/
theorem pollFold_WF {stat : List (String × AnyJob)} {st st' : DriverState}
    {evs : List Event} (hWF : WF st)
    (h : pollFold st stat = .ok (st', evs)) : WF st' := by
  induction stat generalizing st evs with
  | nil =>
    simp only [pollFold, Except.ok.injEq, Prod.mk.injEq] at h
    obtain ⟨rfl, -⟩ := h
    exact hWF
  | cons e rest ih =>
    obtain ⟨jid, job⟩ := e
    obtain ⟨st1, ev, evs2, h1, h2, rfl⟩ := pollFold_cons_inv h
    exact ih (pollOne_WF hWF h1) h2

theorem pollFold_jobs_none {stat : List (String × AnyJob)}
    {st st' : DriverState} {evs : List Event} {j : String}
    (h : pollFold st stat = .ok (st', evs))
    (hz : lookupA st.jobs j = none) : lookupA st'.jobs j = none := by
  induction stat generalizing st evs with
  | nil =>
    simp only [pollFold, Except.ok.injEq, Prod.mk.injEq] at h
    obtain ⟨rfl, -⟩ := h
    exact hz
  | cons e rest ih =>
    obtain ⟨jid, job⟩ := e
    obtain ⟨st1, ev, evs2, h1, h2, rfl⟩ := pollFold_cons_inv h
    exact ih h2 (pollOne_jobs_none h1 hz)

theorem pollFold_iens_none {stat : List (String × AnyJob)}
    {st st' : DriverState} {evs : List Event} {i : Nat}
    (h : pollFold st stat = .ok (st', evs))
    (hz : lookupA st.iens2jobid i = none) :
    lookupA st'.iens2jobid i = none := by
  induction stat generalizing st evs with
  | nil =>
    simp only [pollFold, Except.ok.injEq, Prod.mk.injEq] at h
    obtain ⟨rfl, -⟩ := h
    exact hz
  | cons e rest ih =>
    obtain ⟨jid, job⟩ := e
    obtain ⟨st1, ev, evs2, h1, h2, rfl⟩ := pollFold_cons_inv h
    exact ih h2 (pollOne_iens_none h1 hz)

/-- A tracked job id mentioned by no processed entry keeps its `_jobs`
value through the whole loop. -/
theorem pollFold_jobs_frame {stat : List (String × AnyJob)}
    {st st' : DriverState} {evs : List Event} {j : String}
    (hno : ∀ e ∈ stat, e.1 ≠ j) (h : pollFold st stat = .ok (st', evs)) :
    lookupA st'.jobs j = lookupA st.jobs j := by
  induction stat generalizing st evs with
  | nil =>
    simp only [pollFold, Except.ok.injEq, Prod.mk.injEq] at h
    obtain ⟨rfl, -⟩ := h
    rfl
  | cons e rest ih =>
    obtain ⟨jid, job⟩ := e
    obtain ⟨st1, ev, evs2, h1, h2, rfl⟩ := pollFold_cons_inv h
    have hj : j ≠ jid := fun he => (hno (jid, job) (List.mem_cons_self _ _)) he.symm
    rw [ih (fun e he => hno e (List.mem_cons_of_mem _ he)) h2]
    exact pollOne_jobs_frame h1 hj

/-- No event of a poll loop reports a realization whose job id is processed
by no entry. -/
theorem pollFold_no_event_for {stat : List (String × AnyJob)}
    {st st' : DriverState} {evs : List Event} {j : String} {i : Nat}
    {stx : String} (hWF : WF st) (hj : lookupA st.jobs j = some (i, stx))
    (hno : ∀ e ∈ stat, e.1 ≠ j) (h : pollFold st stat = .ok (st', evs)) :
    ∀ ev ∈ evs, evIens ev ≠ i := by
  induction stat generalizing st evs with
  | nil =>
    simp only [pollFold, Except.ok.injEq, Prod.mk.injEq] at h
    obtain ⟨-, rfl⟩ := h
    simp
  | cons e rest ih =>
    obtain ⟨jid, job⟩ := e
    obtain ⟨st1, ev, evs2, h1, h2, rfl⟩ := pollFold_cons_inv h
    have hjne : j ≠ jid := fun he => (hno (jid, job) (List.mem_cons_self _ _)) he.symm
    intro e he
    rcases List.mem_append.1 he with he | he
    · cases hev : ev with
      | none => rw [hev] at he; simp at he
      | some e0 =>
        rw [hev] at he
        simp only [Option.toList_some, List.mem_singleton] at he
        subst he
        rw [hev] at h1
        obtain ⟨old', hk⟩ := pollOne_event_iens h1
        rintro hie
        rw [hie] at hk
        have h1' : lookupA st.iens2jobid i = some jid := WF_jobs_to_iens hWF hk
        have h2' : lookupA st.iens2jobid i = some j := WF_jobs_to_iens hWF hj
        rw [h1'] at h2'
        exact hjne (by simpa using h2'.symm)
    · have hj1 : lookupA st1.jobs j = some (i, stx) := by
        rw [pollOne_jobs_frame h1 hjne]
        exact hj
      exact ih (pollOne_WF hWF h1) hj1
        (fun e he => hno e (List.mem_cons_of_mem _ he)) h2 e he

/-- Returncode and aborted flag of every finished event of a poll loop. -/
theorem pollFold_rc_ab {stat : List (String × AnyJob)}
    {st st' : DriverState} {evs : List Event} {i : Nat} {rc : Int} {ab : Bool}
    (h : pollFold st stat = .ok (st', evs))
    (hev : Event.FinishedEvent i rc ab ∈ evs) :
    (rc = 1 ∧ ab = true) ∨ (rc = 0 ∧ ab = false) := by
  induction stat generalizing st evs with
  | nil =>
    simp only [pollFold, Except.ok.injEq, Prod.mk.injEq] at h
    obtain ⟨-, rfl⟩ := h
    simp at hev
  | cons e rest ih =>
    obtain ⟨jid, job⟩ := e
    obtain ⟨st1, ev, evs2, h1, h2, rfl⟩ := pollFold_cons_inv h
    rcases List.mem_append.1 hev with he | he
    · cases hevo : ev with
      | none => rw [hevo] at he; simp at he
      | some e0 =>
        rw [hevo] at he
        simp only [Option.toList_some, List.mem_singleton] at he
        rw [hevo, ← he] at h1
        exact pollOne_rc_ab h1
    · exact ih h2 he

/-- Once a poll loop emits a finished event for a realization, the final
state tracks neither the realization nor its job id. -/
theorem pollFold_forgets {stat : List (String × AnyJob)}
    {st st' : DriverState} {evs : List Event} {i : Nat} {rc : Int} {ab : Bool}
    (hWF : WF st) (h : pollFold st stat = .ok (st', evs))
    (hev : Event.FinishedEvent i rc ab ∈ evs) :
    lookupA st'.iens2jobid i = none ∧
    ∀ jid, lookupA st.iens2jobid i = some jid → lookupA st'.jobs jid = none := by
  induction stat generalizing st evs with
  | nil =>
    simp only [pollFold, Except.ok.injEq, Prod.mk.injEq] at h
    obtain ⟨-, rfl⟩ := h
    simp at hev
  | cons e rest ih =>
    obtain ⟨k, job⟩ := e
    obtain ⟨st1, ev, evs2, h1, h2, rfl⟩ := pollFold_cons_inv h
    have hWF1 := pollOne_WF hWF h1
    rcases List.mem_append.1 hev with he | he
    · cases hevo : ev with
      | none => rw [hevo] at he; simp at he
      | some e0 =>
        rw [hevo] at he
        simp only [Option.toList_some, List.mem_singleton] at he
        rw [hevo, ← he] at h1
        obtain ⟨hi1, hk1, hik⟩ := pollOne_finished_forgets hWF h1
        refine ⟨pollFold_iens_none h2 hi1, ?_⟩
        intro jid hjid
        rw [hik] at hjid
        obtain rfl : k = jid := by simpa using hjid
        exact pollFold_jobs_none h2 hk1
    · obtain ⟨hi2, hrest⟩ := ih hWF1 h2 he
      refine ⟨hi2, ?_⟩
      intro jid hjid
      rcases pollOne_iens_lookup hWF h1 i with hcase | ⟨hnone, hsome, hjobs⟩
      · exact hrest jid (by rw [hcase]; exact hjid)
      · rw [hjid] at hsome
        obtain rfl : jid = k := by simpa using hsome
        exact pollFold_jobs_none h2 hjobs

/-! ### Lemmas about `_Stat` validation and `pollStep` -/

theorem mkStat_keys {l : List (String × String)} {stat : List (String × AnyJob)}
    (h : mkStat l = .ok stat) : keysA stat = keysA l := by
  induction l generalizing stat with
  | nil =>
    simp only [mkStat, Except.ok.injEq] at h
    subst h
    rfl
  | cons hd tl ih =>
    obtain ⟨k, v⟩ := hd
    cases hv : anyJobOfState v with
    | none => simp [mkStat, hv] at h
    | some j =>
      cases hrest : mkStat tl with
      | error e => simp [mkStat, hv, hrest, except_bind_error] at h
      | ok r =>
        simp only [mkStat, hv, hrest, except_bind_ok, Except.ok.injEq] at h
        subst h
        simp only [keysA, List.map_cons, List.cons.injEq]
        exact ⟨trivial, ih hrest⟩

theorem mkStat_ok_of_valid {l : List (String × String)}
    (h : ∀ kv ∈ l, (anyJobOfState kv.2).isSome) :
    ∃ stat, mkStat l = .ok stat := by
  induction l with
  | nil => exact ⟨[], rfl⟩
  | cons hd tl ih =>
    obtain ⟨k, v⟩ := hd
    have hv := h (k, v) (List.mem_cons_self _ _)
    cases hvo : anyJobOfState v with
    | none => rw [hvo] at hv; simp at hv
    | some j =>
      obtain ⟨stat, hst⟩ := ih (fun kv hkv => h kv (List.mem_cons_of_mem _ hkv))
      exact ⟨(k, j) :: stat, by simp [mkStat, hvo, hst, except_bind_ok]⟩

theorem pollStep_inv {s s' : DriverState} {out : String} {evs : List Event}
    {miss : List String} (h : pollStep s out = .ok (s', evs, miss)) :
    ∃ stat, mkStat (parse_bjobs out) = .ok stat ∧
      pollFold s stat = .ok (s', evs) ∧ miss = missingIds s'.jobs stat := by
  cases h1 : mkStat (parse_bjobs out) with
  | error e => simp [pollStep, h1, except_bind_error] at h
  | ok stat =>
    cases h2 : pollFold s stat with
    | error e => simp [pollStep, h1, h2, except_bind_ok, except_bind_error] at h
    | ok r =>
      obtain ⟨s2, evs2⟩ := r
      simp only [pollStep, h1, h2, except_bind_ok, Except.ok.injEq,
        Prod.mk.injEq] at h
      obtain ⟨rfl, rfl, rfl⟩ := h
      exact ⟨stat, rfl, h2, rfl⟩

/-- A poll cycle whose parsed states all validate cannot raise on a
well-formed state. -/
theorem pollStep_ok {s : DriverState} {out : String} (hWF : WF s)
    (hval : ∀ kv ∈ parse_bjobs out, (anyJobOfState kv.2).isSome) :
    ∃ r, pollStep s out = .ok r := by
  obtain ⟨stat, hst⟩ := mkStat_ok_of_valid hval
  obtain ⟨⟨s2, evs⟩, hf⟩ := pollFold_ok_of_WF stat s hWF
  exact ⟨(s2, evs, missingIds s2.jobs stat),
    by simp [pollStep, hst, hf, except_bind_ok]⟩

theorem mem_missingIds {jobs : List (String × (Nat × String))}
    {stat : List (String × AnyJob)} {k : String} :
    k ∈ missingIds jobs stat ↔ k ∈ keysA jobs ∧ lookupA stat k = none := by
  simp [missingIds, List.mem_filter, Option.isNone_iff_eq_none]

/-! ### Lemmas about `submit`, `kill` and operation traces -/

/-- Everything `submit` can return, read off its two raise points. -/
theorem submit_ok_inv {s : DriverState} {iens : Nat} {res : BsubResult}
    {rp : Option String} {s' : DriverState} {w : Option (String × String)}
    (h : submit s iens res rp = .ok (s', w)) :
    res.returncode = 0 ∧ ∃ j, bsub_job_id res.stdout = some j ∧
      s' = ⟨updateA s.jobs j (iens, "PEND"), updateA s.iens2jobid iens j⟩ ∧
      w = rp.map (fun p => (p ++ "/" ++ LSF_INFO_JSON_FILENAME, lsfInfoJson j)) := by
  rw [submit] at h
  by_cases hr : res.returncode ≠ 0
  · simp [hr] at h
  · push_neg at hr
    cases hb : bsub_job_id res.stdout with
    | none => simp [hr, hb] at h
    | some j =>
      simp only [hr, if_neg (by simp : ¬ (0 : Int) ≠ 0), hb,
        Except.ok.injEq, Prod.mk.injEq] at h
      obtain ⟨rfl, rfl⟩ := h
      exact ⟨hr, j, rfl, rfl, rfl⟩

/-- Inserting a fresh realization with a fresh job id preserves
well-formedness. -/
theorem WF_insert {s : DriverState} {j : String} {iens : Nat} (stv : String)
    (hWF : WF s) (hiens : lookupA s.iens2jobid iens = none)
    (hjz : lookupA s.jobs j = none) :
    WF ⟨updateA s.jobs j (iens, stv), updateA s.iens2jobid iens j⟩ := by
  have hnj := hWF.1
  have hni := hWF.2.1
  have hinv1 := hWF.2.2.1
  have hinv2 := hWF.2.2.2
  have hjk : j ∉ keysA s.jobs := lookupA_none_iff.1 hjz
  have hik : iens ∉ keysA s.iens2jobid := lookupA_none_iff.1 hiens
  refine ⟨nodupKeys_updateA _ _ hnj, nodupKeys_updateA _ _ hni, ?_, ?_⟩
  · intro p hp
    rw [updateA_of_not_mem _ hjk] at hp
    rcases List.mem_append.1 hp with hp | hp
    · have hbase := hinv1 p hp
      have hne : p.2.1 ≠ iens := by
        rintro he
        rw [he, hiens] at hbase
        cases hbase
      rw [lookupA_update_ne _ _ _ hne]
      exact hbase
    · simp only [List.mem_singleton] at hp
      subst hp
      exact lookupA_update_self _ _ _
  · intro q hq
    rw [updateA_of_not_mem _ hik] at hq
    rcases List.mem_append.1 hq with hq | hq
    · obtain ⟨r, hr, hr1, hr2⟩ := hinv2 q hq
      have hrne : r.1 ≠ j := by
        rintro he
        have := lookupA_of_mem_key hnj hr he
        rw [hjz] at this
        cases this
      exact ⟨r, mem_updateA_of_mem_ne _ hr hrne, hr1, hr2⟩
    · simp only [List.mem_singleton] at hq
      subst hq
      exact ⟨(j, (iens, stv)), mem_updateA_self _ _ _, rfl, rfl⟩

theorem submit_WF {s s' : DriverState} {iens : Nat} {res : BsubResult}
    {rp : Option String} {w : Option (String × String)} (hWF : WF s)
    (hiens : lookupA s.iens2jobid iens = none)
    (hjob : ∀ j, bsub_job_id res.stdout = some j → lookupA s.jobs j = none)
    (h : submit s iens res rp = .ok (s', w)) : WF s' := by
  obtain ⟨-, j, hb, rfl, -⟩ := submit_ok_inv h
  exact WF_insert _ hWF hiens (hjob j hb)

/-- The coroutine `kill` never changes the driver state and never emits an event. -/
theorem kill_frame (s : DriverState) (iens : Nat) (res : BkillResult) :
    (kill s iens res).1 = s ∧ (kill s iens res).2.1 = [] := by
  cases h : lookupA s.iens2jobid iens with
  | none => simp [kill, h]
  | some jid =>
    simp only [kill, h]
    split
    · exact ⟨rfl, rfl⟩
    · split
      · exact ⟨rfl, rfl⟩
      · exact ⟨rfl, rfl⟩

/-- One disciplined operation preserves well-formedness. -/
theorem applyOp_WF {s : DriverState} {op : DriverOp} (hWF : WF s)
    (hok : opOK s op = true) : WF (applyOp s op) := by
  cases op with
  | submitOp iens res rp =>
    simp only [opOK, Bool.and_eq_true] at hok
    obtain ⟨h1, h2⟩ := hok
    cases hs : submit s iens res rp with
    | error e => simpa [applyOp, hs] using hWF
    | ok r =>
      obtain ⟨s', w⟩ := r
      have hjob : ∀ j, bsub_job_id res.stdout = some j → lookupA s.jobs j = none := by
        intro j hj
        rw [hj] at h2
        simpa [Option.all, Option.isNone_iff_eq_none] using h2
      have hw := submit_WF hWF (Option.isNone_iff_eq_none.1 h1) hjob hs
      simpa [applyOp, hs] using hw
  | pollOp out =>
    cases hs : pollStep s out with
    | error e => simpa [applyOp, hs] using hWF
    | ok r =>
      obtain ⟨s', evs, miss⟩ := r
      obtain ⟨stat, -, h2, -⟩ := pollStep_inv hs
      have hw := pollFold_WF hWF h2
      simpa [applyOp, hs] using hw
  | killOp iens res =>
    have hk := (kill_frame s iens res).1
    simpa [applyOp, hk] using hWF

/-- A disciplined trace of operations preserves well-formedness. -/
theorem traceOK_WF {ops : List DriverOp} {s : DriverState} (hWF : WF s)
    (h : traceOK s ops = true) : WF (applyOps s ops) := by
  induction ops generalizing s with
  | nil => exact hWF
  | cons op rest ih =>
    simp only [traceOK, Bool.and_eq_true] at h
    exact ih (applyOp_WF hWF h.1) h.2

/-! ### The claims -/

/-- C1: a status string outside the driver's nine-state vocabulary is
ignored for the cycle without raising (first conjunct: `GARBAGE` leaves the
state untouched, emits nothing, and only logs the job as missing), but the
claim's "poll never raises, whatever status strings bjobs returns" fails on
the code: the five intermediate vocabulary states (here `SSUSP`) pass
`parse_bjobs` and then fail the `_Stat`/`AnyJob` validation, so the poll
cycle raises (second conjunct). -/
theorem c1_unknown_ignored_but_sussp_raises :
    pollStep ⟨[("1", (0, "PEND"))], [(0, "1")]⟩ "1 usr GARBAGE" =
      .ok (⟨[("1", (0, "PEND"))], [(0, "1")]⟩, [], ["1"]) ∧
    (pollStep ⟨[("1", (0, "PEND"))], [(0, "1")]⟩ "1 usr SSUSP").isOk = false := by
  decide

/-- C2 counterexample: a job submitted and never killed exits on its own
(`EXIT` after a plain nonzero exit), yet the driver emits
`FinishedEvent` with `aborted = true` — the flag does not distinguish
"killed" from "exited abnormally on its own", contradicting the claim. -/
theorem c2_counterexample :
    applyOps initState
      [DriverOp.submitOp 0 ⟨0, "Job <1> is submitted to default queue.\n", ""⟩ none] =
      ⟨[("1", (0, "PEND"))], [(0, "1")]⟩ ∧
    pollStep ⟨[("1", (0, "PEND"))], [(0, "1")]⟩ "1 usr EXIT" =
      .ok (⟨[], []⟩, [Event.FinishedEvent 0 1 true], []) := by
  decide

/-- C2 amended: for every `FinishedEvent` emitted by a poll cycle, the
aborted flag is true iff the job's final state was `EXIT`, which is also
exactly when the returncode is nonzero (1); the driver does not consult
whether a kill was requested. -/
theorem c2_amended {s s' : DriverState} {out : String} {evs : List Event}
    {miss : List String} {iens : Nat} {rc : Int} {ab : Bool}
    (h : pollStep s out = .ok (s', evs, miss))
    (hev : Event.FinishedEvent iens rc ab ∈ evs) :
    (rc = 1 ∧ ab = true) ∨ (rc = 0 ∧ ab = false) := by
  obtain ⟨stat, -, h2, -⟩ := pollStep_inv h
  exact pollFold_rc_ab h2 hev

/-- C2 amended, witness at a concrete input. -/
theorem c2_amended_witness :
    ((1 : Int) = 1 ∧ true = true) ∨ ((1 : Int) = 0 ∧ true = false) :=
  @c2_amended ⟨[("1", (0, "PEND"))], [(0, "1")]⟩ ⟨[], []⟩ "1 usr EXIT"
    [Event.FinishedEvent 0 1 true] [] 0 1 true (by decide) (by decide)

/-- C3 counterexample: a tracked job last known as `RUN` is reported `PEND`
by bjobs; the parsed state differs from the last-known state and is
recorded, yet no event is emitted — refuting the claim's "event iff the
parsed state differs".  The `RUN` state is reached by a real
submit-then-poll trace. -/
theorem c3_counterexample :
    applyOps initState
      [DriverOp.submitOp 0 ⟨0, "Job <1> is submitted to default queue.\n", ""⟩ none,
       DriverOp.pollOp "1 usr RUN"] = ⟨[("1", (0, "RUN"))], [(0, "1")]⟩ ∧
    pollStep ⟨[("1", (0, "RUN"))], [(0, "1")]⟩ "1 usr PEND" =
      .ok (⟨[("1", (0, "PEND"))], [(0, "1")]⟩, [], []) ∧ "PEND" ≠ "RUN" := by
  decide

/-- C3 amended: for a tracked job id processed in a poll cycle, the emitted
event is none when the parsed state equals the last-known state, and
otherwise is determined by the new state: `RUN` emits `StartedEvent`,
`DONE`/`EXIT` emit `FinishedEvent` with returncode 0/1, and `PEND` emits
nothing (the state is recorded silently). -/
theorem c3_amended {st st' : DriverState} {jid : String} {job : AnyJob}
    {iens : Nat} {old : String} {ev : Option Event}
    (hj : lookupA st.jobs jid = some (iens, old))
    (hij : lookupA st.iens2jobid iens = some jid)
    (h : pollOne st (jid, job) = .ok (st', ev)) :
    ev = if old = job.job_state then none
      else match job with
        | .RunningJob => some (.StartedEvent iens)
        | .QueuedJob => none
        | .FinishedJob .DONE => some (.FinishedEvent iens 0 false)
        | .FinishedJob .EXIT => some (.FinishedEvent iens 1 true) := by
  by_cases he : old = job.job_state
  · rw [pollOne_unchanged job hj he] at h
    simp only [Except.ok.injEq, Prod.mk.injEq] at h
    obtain ⟨-, rfl⟩ := h
    simp [he]
  · cases job with
    | RunningJob =>
      rw [pollOne_running hj (by simpa [AnyJob.job_state] using he)] at h
      simp only [Except.ok.injEq, Prod.mk.injEq] at h
      obtain ⟨-, rfl⟩ := h
      simp [he]
    | QueuedJob =>
      rw [pollOne_queued hj (by simpa [AnyJob.job_state] using he)] at h
      simp only [Except.ok.injEq, Prod.mk.injEq] at h
      obtain ⟨-, rfl⟩ := h
      simp [he]
    | FinishedJob fs =>
      cases fs with
      | DONE =>
        rw [pollOne_done hj (by simpa [AnyJob.job_state] using he) hij] at h
        simp only [Except.ok.injEq, Prod.mk.injEq] at h
        obtain ⟨-, rfl⟩ := h
        simp [he]
      | EXIT =>
        rw [pollOne_exit hj (by simpa [AnyJob.job_state] using he) hij] at h
        simp only [Except.ok.injEq, Prod.mk.injEq] at h
        obtain ⟨-, rfl⟩ := h
        simp [he]

/-- C3 amended, witness at a concrete input. -/
theorem c3_amended_witness :
    (some (Event.StartedEvent 0) : Option Event) =
      if "PEND" = AnyJob.RunningJob.job_state then none
      else match AnyJob.RunningJob with
        | .RunningJob => some (.StartedEvent 0)
        | .QueuedJob => none
        | .FinishedJob .DONE => some (.FinishedEvent 0 0 false)
        | .FinishedJob .EXIT => some (.FinishedEvent 0 1 true) :=
  @c3_amended ⟨[("1", (0, "PEND"))], [(0, "1")]⟩
    ⟨[("1", (0, "RUN"))], [(0, "1")]⟩ "1" AnyJob.RunningJob 0 "PEND"
    (some (Event.StartedEvent 0)) (by decide) (by decide) (by decide)

/-- C4: `submit` is atomic on error — a nonzero bsub returncode raises with
the bsub stderr, producing neither a new driver state nor a metadata-file
write (all mutations in the source come after the raise points) — and on
success the captured job id is recorded in both maps with state `PEND` and
the `lsf_info.json` metadata file is written into the runpath when one is
given. -/
theorem c4_submit_atomic (s : DriverState) (iens : Nat) (res : BsubResult)
    (rp : Option String) :
    (res.returncode ≠ 0 → submit s iens res rp = .error res.stderr) ∧
    (∀ s' w, submit s iens res rp = .ok (s', w) →
      ∃ j, bsub_job_id res.stdout = some j ∧
        lookupA s'.jobs j = some (iens, "PEND") ∧
        lookupA s'.iens2jobid iens = some j ∧
        w = rp.map (fun p => (p ++ "/" ++ LSF_INFO_JSON_FILENAME, lsfInfoJson j))) := by
  constructor
  · intro hr
    simp [submit, hr]
  · intro s' w h
    obtain ⟨-, j, hb, rfl, hw⟩ := submit_ok_inv h
    exact ⟨j, hb, lookupA_update_self _ _ _, lookupA_update_self _ _ _, hw⟩

/-- C4, witness at concrete inputs: a rejected submission and an accepted
one with a runpath. -/
theorem c4_submit_atomic_witness :
    submit initState 0 ⟨1, "", "boom"⟩ none = .error "boom" ∧
    (∃ j, bsub_job_id "Job <7> is submitted to the normal queue." = some j ∧
      lookupA (⟨[("7", (0, "PEND"))], [(0, "7")]⟩ : DriverState).jobs j =
        some (0, "PEND") ∧
      lookupA (⟨[("7", (0, "PEND"))], [(0, "7")]⟩ : DriverState).iens2jobid 0 =
        some j ∧
      (some ("/rp/" ++ LSF_INFO_JSON_FILENAME, lsfInfoJson "7") :
          Option (String × String)) =
        (some "/rp").map
          (fun p => (p ++ "/" ++ LSF_INFO_JSON_FILENAME, lsfInfoJson j))) :=
  ⟨(c4_submit_atomic initState 0 ⟨1, "", "boom"⟩ none).1 (by decide),
   (c4_submit_atomic initState 0
      ⟨0, "Job <7> is submitted to the normal queue.", ""⟩ (some "/rp")).2
      ⟨[("7", (0, "PEND"))], [(0, "7")]⟩
      (some ("/rp/" ++ LSF_INFO_JSON_FILENAME, lsfInfoJson "7")) (by decide)⟩

/-- C5: whenever a poll cycle emits a `FinishedEvent` for realization
`iens`, the resulting state tracks neither `iens` nor the job id that was
recorded for it at the start of the cycle, so later cycles (which skip
untracked ids) can emit nothing more for that job id. -/
theorem c5_poll_forgets {s s' : DriverState} {out : String} {evs : List Event}
    {miss : List String} {iens : Nat} {rc : Int} {ab : Bool}
    (hWF : WF s) (h : pollStep s out = .ok (s', evs, miss))
    (hev : Event.FinishedEvent iens rc ab ∈ evs) :
    lookupA s'.iens2jobid iens = none ∧
    ∀ jid, lookupA s.iens2jobid iens = some jid → lookupA s'.jobs jid = none := by
  obtain ⟨stat, -, h2, -⟩ := pollStep_inv h
  exact pollFold_forgets hWF h2 hev

/-- C5, witness at a concrete input. -/
theorem c5_poll_forgets_witness :
    lookupA (⟨[], []⟩ : DriverState).iens2jobid 0 = none ∧
    ∀ jid, lookupA (⟨[("1", (0, "PEND"))], [(0, "1")]⟩ :
        DriverState).iens2jobid 0 = some jid →
      lookupA (⟨[], []⟩ : DriverState).jobs jid = none :=
  @c5_poll_forgets ⟨[("1", (0, "PEND"))], [(0, "1")]⟩ ⟨[], []⟩ "1 usr DONE"
    [Event.FinishedEvent 0 0 false] [] 0 0 false (by decide) (by decide)
    (by decide)

/-- C6: `kill` never mutates the tracking maps, never emits an event, and
is a logged no-op returning `missingJobId` when the realization has no
known job id; a failing bkill only logs `bkillFailed`, leaving everything
tracked. -/
theorem c6_kill_no_event (s : DriverState) (iens : Nat) (res : BkillResult) :
    (kill s iens res).1 = s ∧ (kill s iens res).2.1 = [] ∧
    (lookupA s.iens2jobid iens = none →
      (kill s iens res).2.2 = KillResult.missingJobId) ∧
    (res.returncode ≠ 0 → ∀ jid, lookupA s.iens2jobid iens = some jid →
      (kill s iens res).2.2 = KillResult.bkillFailed) := by
  obtain ⟨h1, h2⟩ := kill_frame s iens res
  refine ⟨h1, h2, ?_, ?_⟩
  · intro hz
    simp [kill, hz]
  · intro hr jid hsome
    simp [kill, hsome, hr]

/-- C6, witness at concrete inputs. -/
theorem c6_kill_no_event_witness :
    (kill initState 5 ⟨0, "", ""⟩).1 = initState ∧
    (kill initState 5 ⟨0, "", ""⟩).2.1 = [] ∧
    (kill initState 5 ⟨0, "", ""⟩).2.2 = KillResult.missingJobId ∧
    (kill ⟨[("1", (0, "RUN"))], [(0, "1")]⟩ 0 ⟨255, "", "fail"⟩).2.2 =
      KillResult.bkillFailed :=
  ⟨(c6_kill_no_event initState 5 ⟨0, "", ""⟩).1,
   (c6_kill_no_event initState 5 ⟨0, "", ""⟩).2.1,
   (c6_kill_no_event initState 5 ⟨0, "", ""⟩).2.2.1 (by decide),
   (c6_kill_no_event ⟨[("1", (0, "RUN"))], [(0, "1")]⟩ 0 ⟨255, "", "fail"⟩).2.2.2
     (by decide) "1" (by decide)⟩

/-- C7: in a completed poll cycle, a job id in the bjobs response that is
not tracked is skipped without effect (first conjunct: the loop body leaves
the state unchanged and emits nothing for it; second: untracked ids stay
untracked), while a tracked id absent from the response keeps its last
known state, is listed in the missing-ids warning, and contributes no
event. -/
theorem c7_untracked_and_missing {s s' : DriverState} {out : String}
    {evs : List Event} {miss : List String}
    (hWF : WF s) (h : pollStep s out = .ok (s', evs, miss)) :
    (∀ st : DriverState, ∀ job : AnyJob, ∀ jid : String,
      lookupA st.jobs jid = none → pollOne st (jid, job) = .ok (st, none)) ∧
    (∀ jid, lookupA s.jobs jid = none → lookupA s'.jobs jid = none) ∧
    (∀ jid iens stx, lookupA s.jobs jid = some (iens, stx) →
      lookupA (parse_bjobs out) jid = none →
      lookupA s'.jobs jid = some (iens, stx) ∧ jid ∈ miss ∧
        ∀ ev ∈ evs, evIens ev ≠ iens) := by
  obtain ⟨stat, h1, h2, h3⟩ := pollStep_inv h
  refine ⟨fun st job jid hz => pollOne_untracked job hz, ?_, ?_⟩
  · intro jid hz
    exact pollFold_jobs_none h2 hz
  · intro jid iens stx hj hp
    have hkeys : keysA stat = keysA (parse_bjobs out) := mkStat_keys h1
    have hnk : jid ∉ keysA stat := by
      rw [hkeys]
      exact lookupA_none_iff.1 hp
    have hno : ∀ e ∈ stat, e.1 ≠ jid := by
      intro e he hee
      exact hnk (hee ▸ mem_keysA_of_mem he)
    have hval : lookupA s'.jobs jid = some (iens, stx) := by
      rw [pollFold_jobs_frame hno h2]
      exact hj
    refine ⟨hval, ?_, pollFold_no_event_for hWF hj hno h2⟩
    rw [h3, mem_missingIds]
    exact ⟨mem_keysA_of_mem (mem_of_lookupA hval), lookupA_none_iff.2 hnk⟩

/-- C7, witness at a concrete input: job "2" transitions, "9" is in the
response but untracked, "1" is tracked but missing from the response. -/
theorem c7_untracked_and_missing_witness :
    lookupA (⟨[("1", (0, "PEND")), ("2", (1, "RUN"))],
      [(0, "1"), (1, "2")]⟩ : DriverState).jobs "1" = some (0, "PEND") ∧
    "1" ∈ (["1"] : List String) ∧ evIens (Event.StartedEvent 1) ≠ 0 := by
  have hc := @c7_untracked_and_missing
    ⟨[("1", (0, "PEND")), ("2", (1, "PEND"))], [(0, "1"), (1, "2")]⟩
    ⟨[("1", (0, "PEND")), ("2", (1, "RUN"))], [(0, "1"), (1, "2")]⟩
    "2 usr RUN\n9 usr RUN" [Event.StartedEvent 1] ["1"]
    (by decide) (by decide)
  obtain ⟨-, -, h3⟩ := hc
  obtain ⟨ha, hb, hcv⟩ := h3 "1" 0 "PEND" (by decide) (by decide)
  exact ⟨ha, hb, hcv (Event.StartedEvent 1) (by decide)⟩

/-- C8: starting from the empty driver state, any sequence of submit, poll
and kill operations in which a realization is only submitted while
untracked and bsub hands out job ids that are not currently tracked keeps
the two maps well-formed: no duplicated keys, and `_jobs` and
`_iens2jobid` mutually inverse, so a job id belongs to at most one
realization and a realization holds at most one job id. -/
theorem c8_maps_mutually_inverse (ops : List DriverOp)
    (h : traceOK initState ops = true) : WF (applyOps initState ops) :=
  traceOK_WF (by decide) h

/-- C8, witness: a full life cycle — submit, started, kill issued, exit
reported, resubmit with a fresh id. -/
theorem c8_maps_mutually_inverse_witness :
    WF (applyOps initState
      [DriverOp.submitOp 0 ⟨0, "Job <1> is submitted to default queue.\n", ""⟩ none,
       DriverOp.pollOp "1 usr RUN",
       DriverOp.killOp 0 ⟨0, "Job <1> is being terminated", ""⟩,
       DriverOp.pollOp "1 usr EXIT",
       DriverOp.submitOp 0 ⟨0, "Job <2> is submitted to default queue.\n", ""⟩
         (some "/rp")]) :=
  c8_maps_mutually_inverse _ (by decide)

/-- C9 counterexample: two qualifying lines with the same first token yield
a single entry holding the last line's state, not one entry per line with
that line's state — `parse_bjobs` is a dict build, later lines overwrite
earlier ones. -/
theorem c9_counterexample :
    parse_bjobs "1 usr RUN\n1 usr DONE" = [("1", "DONE")] ∧
    ((splitLines "1 usr RUN\n1 usr DONE").filter
      (fun l => (lineEntry l).isSome)).length = 2 ∧
    lineEntry "1 usr RUN" = some ("1", "RUN") := by
  decide

/-- C9 amended: `parse_bjobs` is total and returns a duplicate-free
mapping with exactly one entry per distinct first token among the
qualifying lines (nonempty, digit-initial, at least three tokens, third
token among the nine known states); the entry for a token carries the
state of the last qualifying line with that token, and all other lines
contribute nothing. -/
theorem c9_amended (out : String) :
    NodupKeys (parse_bjobs out) ∧
    ∀ k, lookupA (parse_bjobs out) k = lookupA (entriesOf out).reverse k :=
  ⟨nodupKeys_parse_bjobs out, fun k => lookupA_parse_bjobs out k⟩

/-- C10: with a zero bsub returncode but stdout in which the job-id
pattern `Job <N> is submitted to .+ queue` matches nowhere, `submit`
raises and records nothing; when the pattern does match, the recorded
backend identifier is exactly the captured number. -/
theorem c10_stdout_must_match (s : DriverState) (iens : Nat)
    (res : BsubResult) (rp : Option String) (h0 : res.returncode = 0) :
    (bsub_job_id res.stdout = none →
      submit s iens res rp =
        .error ("Could not understand '" ++ res.stdout ++ "' from bsub")) ∧
    (∀ j : String, ∀ s' : DriverState, ∀ w : Option (String × String),
      bsub_job_id res.stdout = some j →
      submit s iens res rp = .ok (s', w) →
      lookupA s'.iens2jobid iens = some j ∧
        lookupA s'.jobs j = some (iens, "PEND")) := by
  constructor
  · intro hb
    simp [submit, h0, hb]
  · intro j s' w hb h
    obtain ⟨-, j', hb', rfl, -⟩ := submit_ok_inv h
    rw [hb] at hb'
    obtain rfl : j = j' := by simpa using hb'
    exact ⟨lookupA_update_self _ _ _, lookupA_update_self _ _ _⟩

/-- C10, witness at concrete inputs: an unparseable stdout is rejected
despite returncode 0, and a matching stdout records the captured id. -/
theorem c10_stdout_must_match_witness :
    submit initState 0 ⟨0, "no job id here", "e"⟩ none =
      .error ("Could not understand '" ++ "no job id here" ++ "' from bsub") ∧
    lookupA (⟨[("3", (0, "PEND"))], [(0, "3")]⟩ : DriverState).iens2jobid 0 =
      some "3" ∧
    lookupA (⟨[("3", (0, "PEND"))], [(0, "3")]⟩ : DriverState).jobs "3" =
      some (0, "PEND") := by
  refine ⟨(c10_stdout_must_match initState 0 ⟨0, "no job id here", "e"⟩ none
    rfl).1 (by decide), ?_⟩
  have hc := (c10_stdout_must_match initState 0
    ⟨0, "Job <3> is submitted to the normal queue.", ""⟩ none rfl).2
    "3" ⟨[("3", (0, "PEND"))], [(0, "3")]⟩ none (by decide) (by decide)
  exact hc
